import Mathlib

/-!
llvm_example: the `fib` generator and its reference implementation

A shallow embedding of the two source files of the repository:

* `fibonacci.cpp`: the hand-written recursive `fib` on C++ `int`;
* `generate_fibonacci.cpp`: `declare_fib`, `define_fib` (which build the IR of
  `fib` through the IR-builder API), `generate_object_file` and `main`.

The IR is embedded as plain data (module, functions, basic blocks,
instructions) together with an interpreter for the instructions that the
builder emits. Pointers of the C++ API (`Function*`, `BasicBlock*`, `Value*`)
become indices into the owning container, and the mutation of the module
becomes explicit state passing. Undefined behaviour is made explicit: a signed
overflow of the reference is the outcome `undefined`, and the read of
`declare_fib` through a view of a dead temporary takes its result from the
execution at hand.
-/

namespace LlvmExample

/-! ## 32-bit integers -/

/-- Two's complement wrap of an integer to a signed value of `bits` bits. -/
def wrap (bits : Nat) (v : Int) : Int :=
  let m : Int := Int.ofNat (2 ^ bits)
  let r := v % m
  if r < Int.ofNat (2 ^ (bits - 1)) then r else r - m

/-- Smallest value of a C++ `int` (32 bits). -/
def INT_MIN : Int := -2147483648

/-- Largest value of a C++ `int` (32 bits). -/
def INT_MAX : Int := 2147483647

/-- Membership in the range of a signed 32-bit integer. -/
def isInt32 (x : Int) : Prop := INT_MIN ≤ x ∧ x ≤ INT_MAX

instance (x : Int) : Decidable (isInt32 x) := by
  unfold isInt32; exact inferInstance

/-! ## IR data model -/

/-- IR types that occur in the generator. -/
inductive Ty where
  | void
  | int (bits : Nat)
  deriving DecidableEq, Repr

/-- Signature of a function: `FunctionType::get(result, params, isVarArg)`. -/
structure FunctionType where
  ret : Ty
  params : List Ty
  isVarArg : Bool
  deriving DecidableEq, Repr

/-- Linkage kinds of `GlobalValue::LinkageTypes` (those relevant here). -/
inductive LinkageTypes where
  | ExternalLinkage
  | InternalLinkage
  | PrivateLinkage
  deriving DecidableEq, Repr

/-- Operand of an instruction (a `Value*` of the C++ API). -/
inductive Value where
  | arg (idx : Nat)
  | constInt (ty : Ty) (v : Int)
  | inst (id : Nat)
  deriving DecidableEq, Repr

/-- Instructions that the generator emits. Branch targets are indices of
blocks of the enclosing function; a callee is the index of a function of the
module. -/
inductive Opcode where
  | icmpSLE (lhs rhs : Value)
  | condBr (cond : Value) (ifTrue ifFalse : Nat)
  | ret (v : Value)
  | sub (lhs rhs : Value)
  | add (lhs rhs : Value)
  | call (fty : FunctionType) (callee : Nat) (args : List Value)
  deriving DecidableEq, Repr

/-- An instruction with its handle `id` (unique within its function) and its
result type. -/
structure Instruction where
  id : Nat
  ty : Ty
  op : Opcode
  deriving DecidableEq, Repr

/-- A labelled, ordered instruction sequence. -/
structure BasicBlock where
  name : String
  insts : List Instruction
  deriving DecidableEq, Repr

/-- A function of a module; a declaration has no blocks. -/
structure Function where
  name : String
  linkage : LinkageTypes
  type : FunctionType
  blocks : List BasicBlock
  deriving DecidableEq, Repr

/-- A module: named container of functions and target metadata. -/
structure Module where
  name : String
  functions : List Function
  dataLayout : String
  targetTriple : String
  deriving DecidableEq, Repr

/-- The source's `Function_Pair`: a function handle and its signature. -/
structure Function_Pair where
  func : Nat
  type : FunctionType
  deriving DecidableEq, Repr

/-- Handle of a basic block: owning function and position in it. -/
structure BlockRef where
  func : Nat
  block : Nat
  deriving DecidableEq, Repr

/-- State of `IRBuilder<>`: the insertion point (end of a block), if set. -/
structure IRBuilder where
  insertPoint : Option BlockRef
  deriving DecidableEq, Repr

/-! ## The IR-construction API used by the generator -/

/-- Constructor `Module(name, context)`: an empty module. -/
def Module.create (name : String) : Module :=
  ⟨name, [], "", ""⟩

/-- Replace the element at position `i` by its image under `f`. -/
def modifyAt {α : Type} (f : α → α) (i : Nat) (l : List α) : List α :=
  match l[i]? with
  | some a => l.set i (f a)
  | none => l

/-- A name is taken when a function of the module carries it. -/
def Module.hasName (m : Module) (n : String) : Bool :=
  m.functions.any (fun f => f.name == n)

/-- Search of a free name `base.k`, trying `k, k+1, ...` at most `tries` times. -/
def freshName (m : Module) (base : String) : Nat → Nat → String
  | 0, k => base ++ "." ++ toString k
  | tries + 1, k =>
    if m.hasName (base ++ "." ++ toString k) then freshName m base tries (k + 1)
    else base ++ "." ++ toString k

/-- The name a new global gets: the requested one, or when it is taken a
suffixed one (the symbol table of a module keeps names unique). -/
def Module.uniqueName (m : Module) (n : String) : String :=
  if m.hasName n then freshName m n m.functions.length 1 else n

/-- The call `Function::Create(type, linkage, name, module)`: appends a
declaration to the module and returns its handle. -/
def Function_Create (ty : FunctionType) (linkage : LinkageTypes) (name : String)
    (module : Module) : Module × Nat :=
  ({ module with
      functions := module.functions ++ [⟨module.uniqueName name, linkage, ty, []⟩] },
   module.functions.length)

/-- The call `BasicBlock::Create(context, name, parent)`: appends an empty
block to the function `parent`. -/
def BasicBlock_Create (module : Module) (name : String) (parent : Nat) :
    Module × BlockRef :=
  match module.functions[parent]? with
  | some f =>
    ({ module with
        functions := modifyAt (fun g => { g with blocks := g.blocks ++ [⟨name, []⟩] })
          parent module.functions },
     ⟨parent, f.blocks.length⟩)
  | none => (module, ⟨parent, 0⟩)

/-- The call `ConstantInt::get(ty, v)`: the constant of type `ty` with value `v`. -/
def ConstantInt_get (ty : Ty) (v : Int) : Value :=
  match ty with
  | .int bits => .constInt ty (wrap bits v)
  | .void => .constInt ty v

/-- Number of instructions of a function; the next instruction handle. -/
def Function.instCount (f : Function) : Nat :=
  (f.blocks.map (fun b => b.insts.length)).sum

/-- The instruction of a function with handle `id`. -/
def Function.findInst (f : Function) (id : Nat) : Option Instruction :=
  (f.blocks.flatMap (fun b => b.insts)).find? (fun i => i.id == id)

/-- Type of an operand in the context of a function. -/
def Function.typeOf (f : Function) : Value → Ty
  | .arg i => f.type.params.getD i .void
  | .constInt ty _ => ty
  | .inst id => match f.findInst id with
    | some i => i.ty
    | none => .void

/-- Method `IRBuilder::SetInsertPoint(block)`. -/
def IRBuilder.SetInsertPoint (_b : IRBuilder) (block : BlockRef) : IRBuilder :=
  ⟨some block⟩

/-- Append an instruction at the end of block `block` of a function. -/
def Function.appendInst (f : Function) (block : Nat) (i : Instruction) : Function :=
  { f with blocks := modifyAt (fun blk => { blk with insts := blk.insts ++ [i] }) block f.blocks }

/-- Insertion of a new instruction at the insertion point of the builder:
the instruction is appended to the block and its handle is returned. The
result type is computed from the function by `tyOf`. -/
def IRBuilder.insert (b : IRBuilder) (module : Module) (tyOf : Function → Ty)
    (op : Opcode) : Module × Value :=
  match b.insertPoint with
  | none => (module, .inst 0)
  | some bp =>
    match module.functions[bp.func]? with
    | none => (module, .inst 0)
    | some f =>
      let id := f.instCount
      let f1 := f.appendInst bp.block ⟨id, tyOf f, op⟩
      ({ module with functions := module.functions.set bp.func f1 }, .inst id)

/-- Method `IRBuilder::CreateICmpSLE(lhs, rhs)`: signed `<=`, of type `i1`. -/
def IRBuilder.CreateICmpSLE (b : IRBuilder) (module : Module) (lhs rhs : Value) :
    Module × Value :=
  b.insert module (fun _ => .int 1) (.icmpSLE lhs rhs)

/-- Method `IRBuilder::CreateCondBr(cond, ifTrue, ifFalse)`. -/
def IRBuilder.CreateCondBr (b : IRBuilder) (module : Module) (cond : Value)
    (ifTrue ifFalse : BlockRef) : Module × Value :=
  b.insert module (fun _ => .void) (.condBr cond ifTrue.block ifFalse.block)

/-- Method `IRBuilder::CreateRet(v)`. -/
def IRBuilder.CreateRet (b : IRBuilder) (module : Module) (v : Value) : Module × Value :=
  b.insert module (fun _ => .void) (.ret v)

/-- Method `IRBuilder::CreateSub(lhs, rhs)`: no `nuw`/`nsw` flag, so the
subtraction wraps. -/
def IRBuilder.CreateSub (b : IRBuilder) (module : Module) (lhs rhs : Value) :
    Module × Value :=
  b.insert module (fun f => f.typeOf lhs) (.sub lhs rhs)

/-- Method `IRBuilder::CreateAdd(lhs, rhs)`: no `nuw`/`nsw` flag, so the
addition wraps. -/
def IRBuilder.CreateAdd (b : IRBuilder) (module : Module) (lhs rhs : Value) :
    Module × Value :=
  b.insert module (fun f => f.typeOf lhs) (.add lhs rhs)

/-- Method `IRBuilder::CreateCall(fty, callee, args)`. -/
def IRBuilder.CreateCall (b : IRBuilder) (module : Module) (fty : FunctionType)
    (callee : Nat) (args : List Value) : Module × Value :=
  b.insert module (fun _ => fty.ret) (.call fty callee args)

/-! ## The generator: `declare_fib` and `define_fib` -/

/-- The call `Type::getInt32Ty(context)`: the 32-bit integer type. -/
def Type_getInt32Ty : Ty := .int 32

/-- An element of an `ArrayRef<Type*>`. The view does not own its elements:
`live t` is an element whose storage is alive and holds `t`; `dead t` is an
element whose storage held `t` and whose lifetime has ended. -/
inductive ArrayElt where
  | live (t : Ty)
  | dead (t : Ty)
  deriving DecidableEq, Repr

/-- The class `ArrayRef<Type*>`: a view of the elements of an array. -/
structure ArrayRef where
  elts : List ArrayElt
  deriving DecidableEq, Repr

/-- The one-element constructor `ArrayRef(const T &OneElt)` in a declaration
`ArrayRef<Type*> params(e)` whose argument `e` is a temporary: the view keeps
the address of the temporary, and the temporary is destroyed at the end of
the declaration, before the view is used. -/
def ArrayRef.ofTemporary (t : Ty) : ArrayRef :=
  ⟨[.dead t]⟩

/-- Reading one element of a view. Reading a dead element is undefined
behaviour; `readDead` is what such a read does in the execution at hand:
`some u` when it finds a pointer to the type `u` in the storage that held `t`
(`u = t` when the storage was not reused), `none` when the process faults. -/
def ArrayElt.read (readDead : Ty → Option Ty) : ArrayElt → Option Ty
  | .live t => some t
  | .dead t => readDead t

/-- Reading a list of elements, in order. -/
def ArrayElt.readAll (readDead : Ty → Option Ty) : List ArrayElt → Option (List Ty)
  | [] => some []
  | e :: es =>
    match e.read readDead, ArrayElt.readAll readDead es with
    | some t, some ts => some (t :: ts)
    | _, _ => none

/-- Reading all the elements of a view, in order. -/
def ArrayRef.read (readDead : Ty → Option Ty) (a : ArrayRef) : Option (List Ty) :=
  ArrayElt.readAll readDead a.elts

/-- The call `FunctionType::get(result, params, isVarArg)`: the parameter types
are read through the view `params`. -/
def FunctionType_get (readDead : Ty → Option Ty) (result : Ty) (params : ArrayRef)
    (isVarArg : Bool) : Option FunctionType :=
  match params.read readDead with
  | some ps => some ⟨result, ps, isVarArg⟩
  | none => none

/-- Source `declare_fib(module)`. The global `i32_type_handle` that the source
reads is passed explicitly. The view `params` refers to the temporary
`(Type*)i32_type_handle`, which is dead when `FunctionType::get` reads it;
`readDead` is the behaviour of that read, and the result is `none` when the
process faults. -/
def declare_fib (i32_type_handle : Ty) (readDead : Ty → Option Ty) (module : Module) :
    Option (Module × Function_Pair) :=
  let params : ArrayRef := ArrayRef.ofTemporary i32_type_handle
  match FunctionType_get readDead i32_type_handle params false with
  | none => none
  | some fib_func_type =>
    let (module, fib_func) :=
      Function_Create fib_func_type LinkageTypes.ExternalLinkage "fib" module
    some (module, ⟨fib_func, fib_func_type⟩)

/-- Source `define_fib(context, fib)`. The module that owns `fib.func` is
passed and returned explicitly, and so is the global `i32_type_handle`. -/
def define_fib (i32_type_handle : Ty) (module : Module) (fib : Function_Pair) : Module :=
  let inst_builder : IRBuilder := ⟨none⟩
  let x : Value := .arg 0
  let (module, entry_block) := BasicBlock_Create module "entry" fib.func
  let (module, x_le_1_block) := BasicBlock_Create module "x_le_1" fib.func
  let (module, x_gt_1_block) := BasicBlock_Create module "x_gt_1" fib.func
  -- Entry
  let inst_builder := inst_builder.SetInsertPoint entry_block
  let (module, if_result) :=
    inst_builder.CreateICmpSLE module x (ConstantInt_get i32_type_handle 1)
  let (module, _) := inst_builder.CreateCondBr module if_result x_le_1_block x_gt_1_block
  -- X less than 1
  let inst_builder := inst_builder.SetInsertPoint x_le_1_block
  let (module, _) := inst_builder.CreateRet module x
  -- X greater than 1
  let inst_builder := inst_builder.SetInsertPoint x_gt_1_block
  let (module, arg1) := inst_builder.CreateSub module x (ConstantInt_get i32_type_handle 1)
  let (module, arg2) := inst_builder.CreateSub module x (ConstantInt_get i32_type_handle 2)
  let (module, call1) := inst_builder.CreateCall module fib.type fib.func [arg1]
  let (module, call2) := inst_builder.CreateCall module fib.type fib.func [arg2]
  let (module, result) := inst_builder.CreateAdd module call1 call2
  let (module, _) := inst_builder.CreateRet module result
  module

/-- The module-building part of `main`, in an execution with the given
behaviour of the read through the dead temporary: an empty module named
`fibonacci`, the type handle, then `declare_fib`, then `define_fib`. -/
def buildModuleWith (readDead : Ty → Option Ty) : Option Module :=
  let module := Module.create "fibonacci"
  let i32_type_handle := Type_getInt32Ty
  match declare_fib i32_type_handle readDead module with
  | none => none
  | some (module, fib) => some (define_fib i32_type_handle module fib)

/-- The module that `main` builds in an execution in which the read through the
dead temporary finds the value that was stored there, so that `fib` is
declared with the parameter type `i32`. -/
def buildModule : Module :=
  (buildModuleWith (fun t => some t)).getD (Module.create "fibonacci")

/-- The body that `define_fib` builds, written out. -/
def fibBlocks : List BasicBlock :=
  [⟨"entry",
      [⟨0, .int 1, .icmpSLE (.arg 0) (.constInt (.int 32) 1)⟩,
       ⟨1, .void, .condBr (.inst 0) 1 2⟩]⟩,
   ⟨"x_le_1", [⟨2, .void, .ret (.arg 0)⟩]⟩,
   ⟨"x_gt_1",
      [⟨3, .int 32, .sub (.arg 0) (.constInt (.int 32) 1)⟩,
       ⟨4, .int 32, .sub (.arg 0) (.constInt (.int 32) 2)⟩,
       ⟨5, .int 32, .call ⟨.int 32, [.int 32], false⟩ 0 [.inst 3]⟩,
       ⟨6, .int 32, .call ⟨.int 32, [.int 32], false⟩ 0 [.inst 4]⟩,
       ⟨7, .int 32, .add (.inst 5) (.inst 6)⟩,
       ⟨8, .void, .ret (.inst 7)⟩]⟩]

/-! ## Semantics of the emitted instructions -/

/-- An observable step of an execution: control enters block `block` of
function `func`, a call of function `callee` with argument values, or the
return of the most recent unfinished call with its value. -/
inductive Event where
  | block (func block : Nat)
  | call (callee : Nat) (args : List Int)
  | ret (v : Int)
  deriving DecidableEq, Repr

/-- An activation record: argument values and the values of the instructions
executed so far, most recent first. -/
structure Frame where
  args : List Int
  regs : List (Nat × Int)
  deriving DecidableEq, Repr

/-- Record the result of instruction `id`. -/
def Frame.set (fr : Frame) (id : Nat) (v : Int) : Frame :=
  { fr with regs := (id, v) :: fr.regs }

/-- Value of an operand in a frame. -/
def Frame.eval (fr : Frame) : Value → Option Int
  | .arg i => fr.args[i]?
  | .constInt _ v => some v
  | .inst id => (fr.regs.find? (fun p => p.1 == id)).map (fun p => p.2)

/-- Values of a list of operands in a frame. -/
def Frame.evalList (fr : Frame) : List Value → Option (List Int)
  | [] => some []
  | v :: vs =>
    match fr.eval v, Frame.evalList fr vs with
    | some a, some as => some (a :: as)
    | _, _ => none

/-- Width in bits of an integer type. -/
def Ty.bits : Ty → Nat
  | .int n => n
  | .void => 0

/-- Execution of an instruction sequence in a frame. `callF` runs a call of a
function of the module and `jump` transfers control to a block of the current
function; both may fail. The result is the returned value and the events of
the execution. A sequence that ends without a terminator has no result. -/
def execInsts (callF : Nat → List Int → Option (Int × List Event))
    (jump : Nat → Frame → Option (Int × List Event)) :
    Frame → List Instruction → Option (Int × List Event)
  | _, [] => none
  | fr, i :: rest =>
    match i.op with
    | .ret v =>
      match fr.eval v with
      | some r => some (r, [])
      | none => none
    | .condBr c ifTrue ifFalse =>
      match fr.eval c with
      | some cv => if cv ≠ 0 then jump ifTrue fr else jump ifFalse fr
      | none => none
    | .icmpSLE lhs rhs =>
      match fr.eval lhs, fr.eval rhs with
      | some a, some b =>
        execInsts callF jump (fr.set i.id (if a ≤ b then 1 else 0)) rest
      | _, _ => none
    | .sub lhs rhs =>
      match fr.eval lhs, fr.eval rhs with
      | some a, some b => execInsts callF jump (fr.set i.id (wrap i.ty.bits (a - b))) rest
      | _, _ => none
    | .add lhs rhs =>
      match fr.eval lhs, fr.eval rhs with
      | some a, some b => execInsts callF jump (fr.set i.id (wrap i.ty.bits (a + b))) rest
      | _, _ => none
    | .call _ callee args =>
      match fr.evalList args with
      | none => none
      | some avs =>
        match callF callee avs with
        | none => none
        | some (r, t1) =>
          match execInsts callF jump (fr.set i.id r) rest with
          | none => none
          | some (v, t2) => some (v, Event.call callee avs :: t1 ++ Event.ret r :: t2)

/-- Execution from the start of block `block` of function `func` in frame
`fr`. The fuel bounds the nesting of calls and block transfers: each call
and each branch runs its target with one unit less. -/
def run (m : Module) : Nat → Nat → Nat → Frame → Option (Int × List Event)
  | 0, _, _, _ => none
  | fuel + 1, func, block, fr =>
    match m.functions[func]? with
    | none => none
    | some f =>
      match f.blocks[block]? with
      | none => none
      | some blk =>
        match execInsts (fun g args => run m fuel g 0 ⟨args, []⟩)
            (fun b fr1 => run m fuel func b fr1) fr blk.insts with
        | none => none
        | some (v, t) => some (v, Event.block func block :: t)

/-- A call of function `func` of the module with the given arguments:
execution starts at the first block with an empty frame. -/
def callFunction (m : Module) (fuel : Nat) (func : Nat) (args : List Int) :
    Option (Int × List Event) :=
  run m fuel func 0 ⟨args, []⟩

/-- The generated `fib`: function 0 of the built module, called on `x`. -/
def genFib (fuel : Nat) (x : Int) : Option (Int × List Event) :=
  callFunction buildModule fuel 0 [x]

/-- Fuel that suffices for the generated `fib` on `x`. -/
def genFuel (x : Int) : Nat := 2 * x.toNat + 2

/-- Label of block `block` of function `func` of a module. -/
def blockName (m : Module) (func block : Nat) : Option String :=
  match m.functions[func]? with
  | none => none
  | some f => (f.blocks[block]?).map (fun b => b.name)

/-! ## The reference implementation `fibonacci.cpp` -/

/-- Result of a computation on C++ `int`: a value, or undefined behaviour
caused by a signed overflow. -/
inductive Outcome where
  | value (v : Int)
  | undefined
  deriving DecidableEq, Repr

/-- Arithmetic on `int`: the exact result when it is representable, and no
result (signed overflow) otherwise. -/
def checked (v : Int) : Option Int :=
  if INT_MIN ≤ v ∧ v ≤ INT_MAX then some v else none

/-- Source `fib(x)` of `fibonacci.cpp`. The fuel bounds the depth of the
recursion. The result is the outcome together with the arguments of all the
calls made, in execution order. C++ leaves the evaluation order of the two
operands of `+` open: `leftFirst` chooses whether `fib(x-1)` or `fib(x-2)` is
evaluated first. An overflow ends the evaluation with `undefined`. -/
def fib (leftFirst : Bool) : Nat → Int → Option (Outcome × List Int)
  | 0, _ => none
  | fuel + 1, x =>
    if x ≤ 1 then some (.value x, [])
    else
      match checked (x - 1), checked (x - 2) with
      | some a, some b =>
        let first := if leftFirst then a else b
        let second := if leftFirst then b else a
        match fib leftFirst fuel first with
        | none => none
        | some (.undefined, t1) => some (.undefined, first :: t1)
        | some (.value u, t1) =>
          match fib leftFirst fuel second with
          | none => none
          | some (.undefined, t2) => some (.undefined, first :: t1 ++ second :: t2)
          | some (.value w, t2) =>
            match checked (u + w) with
            | some r => some (.value r, first :: t1 ++ second :: t2)
            | none => some (.undefined, first :: t1 ++ second :: t2)
      | _, _ => some (.undefined, [])

/-- Fuel that suffices for the reference `fib` on `x`. -/
def refFuel (x : Int) : Nat := x.toNat + 1

/-! ## The Fibonacci sequence -/

/-- The Fibonacci numbers: `F(0) = 0`, `F(1) = 1`, `F(n) = F(n-1) + F(n-2)`. -/
def fibSpec : Nat → Nat
  | 0 => 0
  | 1 => 1
  | n + 2 => fibSpec (n + 1) + fibSpec n

/-! ## Closed forms of the executions -/

/-- Value and events of the generated `fib` on a natural number, by recursion
on the argument. -/
def genDen : Nat → Int × List Event
  | 0 => (0, [Event.block 0 0, Event.block 0 1])
  | 1 => (1, [Event.block 0 0, Event.block 0 1])
  | n + 2 =>
    ((wrap 32 ((genDen (n + 1)).1 + (genDen n).1)),
      Event.block 0 0 :: Event.block 0 2 ::
        Event.call 0 [(n : Int) + 1] :: (genDen (n + 1)).2 ++ Event.ret (genDen (n + 1)).1 ::
        Event.call 0 [(n : Int)] :: (genDen n).2 ++ [Event.ret (genDen n).1])

/-- Outcome and calls of the reference `fib` from the outcomes and calls of
its two recursive calls, `first` being the argument evaluated first. -/
def refCombine (first second : Int) (r1 r2 : Outcome × List Int) : Outcome × List Int :=
  match r1 with
  | (.undefined, t1) => (.undefined, first :: t1)
  | (.value u, t1) =>
    match r2 with
    | (.undefined, t2) => (.undefined, first :: t1 ++ second :: t2)
    | (.value w, t2) =>
      match checked (u + w) with
      | some r => (.value r, first :: t1 ++ second :: t2)
      | none => (.undefined, first :: t1 ++ second :: t2)

/-- Outcome and calls of the reference `fib` on a natural number, by
recursion on the argument. -/
def refDen (leftFirst : Bool) : Nat → Outcome × List Int
  | 0 => (.value 0, [])
  | 1 => (.value 1, [])
  | n + 2 =>
    if leftFirst then
      refCombine ((n : Int) + 1) (n : Int) (refDen leftFirst (n + 1)) (refDen leftFirst n)
    else
      refCombine (n : Int) ((n : Int) + 1) (refDen leftFirst n) (refDen leftFirst (n + 1))

/-! ## Well-formedness of a function body -/

/-- Terminators among the emitted instructions: branches and returns. -/
def Opcode.isTerminator : Opcode → Bool
  | .condBr _ _ _ => true
  | .ret _ => true
  | _ => false

/-- The terminators of a block, in order. -/
def BasicBlock.terminators (b : BasicBlock) : List Instruction :=
  b.insts.filter (fun i => i.op.isTerminator)

/-- The last instruction of a block, if any. -/
def BasicBlock.last (b : BasicBlock) : Option Instruction :=
  b.insts.getLast?

/-- A block is well formed when it has exactly one terminator, in last
position. -/
def BasicBlock.wellFormed (b : BasicBlock) : Bool :=
  b.terminators.length == 1 &&
    (match b.last with
     | some i => i.op.isTerminator
     | none => false)

/-- Blocks to which the last instruction of a block may transfer control. -/
def BasicBlock.successors (b : BasicBlock) : List Nat :=
  match b.last with
  | some i =>
    match i.op with
    | .condBr _ ifTrue ifFalse => [ifTrue, ifFalse]
    | _ => []
  | none => []

/-- One round of the reachability computation: the blocks seen so far and the
successors of each of them. -/
def reachStep (f : Function) (seen : List Nat) : List Nat :=
  (seen ++ seen.flatMap (fun b =>
    match f.blocks[b]? with
    | some blk => blk.successors
    | none => [])).eraseDups

/-- Blocks reachable from the entry block (block 0) of a function, computed by
as many rounds as the function has blocks. -/
def Function.reachable (f : Function) : List Nat :=
  Nat.iterate (reachStep f) f.blocks.length [0]

/-! ## The emission pipeline and the driver -/

/-- A registered code-generation target, as found by the target registry. -/
structure Target where
  name : String
  deriving DecidableEq, Repr

/-- Relocation models of `Reloc::Model` (those relevant here). -/
inductive Reloc where
  | Static
  | PIC_
  deriving DecidableEq, Repr

/-- The result of `Target::createTargetMachine(triple, cpu, features, opts, reloc)`. -/
structure TargetMachine where
  target : Target
  triple : String
  cpu : String
  features : String
  reloc : Reloc
  deriving DecidableEq, Repr

/-- The call `target->createTargetMachine(triple, cpu, features, opts, reloc)`
with default options. The source uses the result without a null check; the
model follows it and takes the machine to exist for every target that the
lookup finds. -/
def Target.createTargetMachine (target : Target) (triple cpu features : String)
    (reloc : Reloc) : TargetMachine :=
  ⟨target, triple, cpu, features, reloc⟩

/-- The environment of a run of the generator: the answers of the library and
of the operating system that the program cannot determine itself. -/
structure Host where
  /-- The macros `LLVM_VERSION_MAJOR`, `LLVM_VERSION_MINOR`, `LLVM_VERSION_PATCH`. -/
  version : Nat × Nat × Nat
  /-- The call `sys::getDefaultTargetTriple()`. -/
  getDefaultTargetTriple : String
  /-- The call `TargetRegistry::lookupTarget(triple, error)`: the target, or the
  text stored in `error` when the result is null. -/
  lookupTarget : String → Except String Target
  /-- The call `machine->createDataLayout()`, as a string. -/
  createDataLayout : TargetMachine → String
  /-- Opening a path for writing: `none` on success, and the message of the
  error code on failure. -/
  openForWrite : String → Option String
  /-- The call `machine->addPassesToEmitFile(...)` for an object file: `true` when
  the target cannot emit a file of this type. -/
  addPassesToEmitFile : TargetMachine → Bool
  /-- The bytes that running the emission passes over a module writes. -/
  codegen : TargetMachine → Module → List Nat
  /-- The text that `module.print` writes. -/
  printModule : Module → String
  /-- The behaviour of the read through the dead temporary in `declare_fib`
  (see `ArrayElt.read`); it depends on the compiler and its options. -/
  readDeadTemporary : Ty → Option Ty

/-- The observable state of the process and of the file system. The two
standard streams are the lists of the operands written with `<<`; `passRuns`
lists the modules over which the emission passes were run, and `flushes`
counts the explicit calls of `flush`. -/
structure World where
  stdout : List String
  stderr : List String
  files : List (String × List Nat)
  passRuns : List Module
  flushes : Nat
  deriving DecidableEq, Repr

/-- Writing operands to `outs()`. -/
def World.outs (w : World) (ops : List String) : World :=
  { w with stdout := w.stdout ++ ops }

/-- Writing operands to `errs()`. -/
def World.errs (w : World) (ops : List String) : World :=
  { w with stderr := w.stderr ++ ops }

/-- Content of a file, if it exists. -/
def World.readFile (w : World) (path : String) : Option (List Nat) :=
  (w.files.find? (fun p => p.1 == path)).map (fun p => p.2)

/-- Replace the content of a file, creating it if needed. -/
def World.writeFile (w : World) (path : String) (bytes : List Nat) : World :=
  { w with files := (path, bytes) :: w.files.filter (fun p => p.1 != path) }

/-- An open `raw_fd_ostream`: its path and the bytes not yet written out.
Writing to a file that was opened is taken to succeed. -/
structure raw_fd_ostream where
  path : String
  buffer : List Nat
  deriving DecidableEq, Repr

/-- Constructor `raw_fd_ostream(path, ec, sys::fs::OF_None)`: on failure the error
message and an unchanged world; on success the file is created or truncated. -/
def raw_fd_ostream.create (h : Host) (w : World) (path : String) :
    Except String (raw_fd_ostream × World) :=
  match h.openForWrite path with
  | some msg => .error msg
  | none => .ok (⟨path, []⟩, w.writeFile path [])

/-- Write the buffered bytes of a stream to its file. -/
def raw_fd_ostream.writeOut (s : raw_fd_ostream) (w : World) : raw_fd_ostream × World :=
  ({ s with buffer := [] }, w.writeFile s.path ((w.readFile s.path).getD [] ++ s.buffer))

/-- Method `raw_fd_ostream::flush()`. -/
def raw_fd_ostream.flush (s : raw_fd_ostream) (w : World) : raw_fd_ostream × World :=
  let (s, w) := s.writeOut w
  (s, { w with flushes := w.flushes + 1 })

/-- Destructor of `raw_fd_ostream`, run when the stream goes out of scope: the
buffer is written out and the file is closed. -/
def raw_fd_ostream.destroy (s : raw_fd_ostream) (w : World) : World :=
  (s.writeOut w).2

/-- Source `generate_object_file(module)`. The initialisation of the back ends
is reflected by the answers of the host. -/
def generate_object_file (h : Host) (module : Module) (w : World) : Module × World :=
  let target_triple := h.getDefaultTargetTriple
  match h.lookupTarget target_triple with
  | .error error => (module, w.errs [error])
  | .ok target =>
    let machine := target.createTargetMachine target_triple "generic" "" Reloc.PIC_
    let module := { module with dataLayout := h.createDataLayout machine }
    let module := { module with targetTriple := target_triple }
    match raw_fd_ostream.create h w "fibonacci.obj" with
    | .error ec => (module, w.errs ["Could not open file: ", ec])
    | .ok (output_stream, w) =>
      if h.addPassesToEmitFile machine then
        let w := w.errs ["Error emitting file"]
        (module, output_stream.destroy w)
      else
        let output_stream := { output_stream with
          buffer := output_stream.buffer ++ h.codegen machine module }
        let w := { w with passRuns := w.passRuns ++ [module] }
        let (output_stream, w) := output_stream.flush w
        (module, output_stream.destroy w)

/-- Status of a process that a memory fault has ended (128 + `SIGSEGV`). -/
def faultStatus : Int := 139

/-- Source `main(argc, argv)`: the exit status and the final world. When the
read through the dead temporary in `declare_fib` faults, the process ends
there with `faultStatus`. -/
def main (h : Host) (w : World) : Int × World :=
  let w := w.outs ["At the time of writing, LLVM version is 20.0.0. Your version is: ",
    toString h.version.1, ".", toString h.version.2.1, ".", toString h.version.2.2, "\n"]
  let module := Module.create "fibonacci"
  let i32_type_handle := Type_getInt32Ty
  match declare_fib i32_type_handle h.readDeadTemporary module with
  | none => (faultStatus, w)
  | some (module, fib) =>
    let module := define_fib i32_type_handle module fib
    let w := w.outs ["--In-memory LLVM IR representation is:--\n"]
    let w := w.outs [h.printModule module]
    let w := w.outs ["\n"]
    let (_, w) := generate_object_file h module w
    (0, w)

/-- The target machine that `generate_object_file` creates on a host for a
target. -/
def Host.machine (h : Host) (target : Target) : TargetMachine :=
  target.createTargetMachine h.getDefaultTargetTriple "generic" "" Reloc.PIC_

/-- The module as `generate_object_file` hands it to the emission passes: with
the data layout and the triple of the host attached. -/
def Host.prepare (h : Host) (target : Target) (module : Module) : Module :=
  { module with
    dataLayout := h.createDataLayout (h.machine target)
    targetTriple := h.getDefaultTargetTriple }

/-- A host on which the target is found, the output file opens, and the
target cannot emit object files. -/
def hostNoEmit : Host :=
  ⟨(20, 0, 0), "x86_64-pc-linux-gnu", fun _ => .ok ⟨"x86-64"⟩, fun _ => "e-m:e", fun _ => none,
    fun _ => true, fun _ _ => [127, 69, 76, 70], fun _ => "",
    fun t => some t⟩

/-- A host on which every step of the emission succeeds. -/
def hostOk : Host :=
  ⟨(20, 0, 0), "x86_64-pc-linux-gnu", fun _ => .ok ⟨"x86-64"⟩, fun _ => "e-m:e", fun _ => none,
    fun _ => false, fun _ _ => [127, 69, 76, 70], fun _ => "",
    fun t => some t⟩

/-- A world with an existing object file and nothing written yet. -/
def world0 : World :=
  ⟨[], [], [("fibonacci.obj", [1, 2, 3])], [], 0⟩

end LlvmExample

namespace LlvmExample

/-! ## Properties of the generated function -/

theorem buildModule_eq :
    buildModule =
      ⟨"fibonacci", [⟨"fib", .ExternalLinkage, ⟨.int 32, [.int 32], false⟩, fibBlocks⟩], "", ""⟩ := by
  rfl

theorem wrap_of_isInt32 (v : Int) (h : isInt32 v) : wrap 32 v = v := by
  unfold isInt32 INT_MIN INT_MAX at h
  unfold wrap
  have h1 : Int.ofNat (2 ^ 32) = 4294967296 := by norm_num
  have h2 : Int.ofNat (2 ^ (32 - 1)) = 2147483648 := by norm_num
  simp only [h1, h2]
  split <;> omega

theorem genFib_base (fuel : Nat) (x : Int) (hx : x ≤ 1) :
    genFib (fuel + 2) x = some (x, [Event.block 0 0, Event.block 0 1]) := by
  simp [genFib, callFunction, run, buildModule_eq, fibBlocks, execInsts, Frame.eval,
    Frame.set, hx]

theorem genFib_step (fuel : Nat) (x : Int) (hx : 2 ≤ x) (hmax : x ≤ INT_MAX) :
    genFib (fuel + 2) x =
      match genFib fuel (x - 1) with
      | none => none
      | some (r1, t1) =>
        match genFib fuel (x - 2) with
        | none => none
        | some (r2, t2) =>
          some (wrap 32 (r1 + r2),
            Event.block 0 0 :: Event.block 0 2 ::
              Event.call 0 [x - 1] :: t1 ++ Event.ret r1 :: Event.call 0 [x - 2] :: t2
              ++ [Event.ret r2]) := by
  have h1 : wrap 32 (x - 1) = x - 1 := wrap_of_isInt32 _ (by
    unfold isInt32 INT_MIN; unfold INT_MAX at *; omega)
  have h2 : wrap 32 (x - 2) = x - 2 := wrap_of_isInt32 _ (by
    unfold isInt32 INT_MIN; unfold INT_MAX at *; omega)
  have hx1 : ¬ x ≤ 1 := by omega
  simp [genFib, callFunction, run, buildModule_eq, fibBlocks, execInsts, Frame.eval,
    Frame.set, Frame.evalList, Ty.bits, hx1, h1, h2]
  generalize run _ fuel 0 0 ⟨[x - 1], []⟩ = a
  generalize run _ fuel 0 0 ⟨[x - 2], []⟩ = b
  rcases a with _ | ⟨r1, t1⟩ <;> rcases b with _ | ⟨r2, t2⟩ <;> simp

theorem genFib_genDen (n : Nat) :
    (n : Int) ≤ INT_MAX → ∀ fuel, 2 * n + 2 ≤ fuel → genFib fuel n = some (genDen n) := by
  induction n using Nat.strong_induction_on with
  | _ n ih =>
    intro hmax fuel hfuel
    obtain ⟨k, rfl⟩ : ∃ k, fuel = k + 2 := ⟨fuel - 2, by omega⟩
    match n, ih with
    | 0, _ => simpa [genDen] using genFib_base k 0 (by omega)
    | 1, _ => simpa [genDen] using genFib_base k 1 (by omega)
    | m + 2, ih =>
      have e1 : ((m + 2 : Nat) : Int) - 1 = ((m + 1 : Nat) : Int) := by push_cast; ring
      have e2 : ((m + 2 : Nat) : Int) - 2 = (m : Int) := by push_cast; ring
      have hm : ((m + 2 : Nat) : Int) ≤ INT_MAX := hmax
      unfold INT_MAX at hmax hm
      have r1 := ih (m + 1) (by omega) (by unfold INT_MAX; omega) k (by omega)
      have r2 := ih m (by omega) (by unfold INT_MAX; omega) k (by omega)
      rw [genFib_step k _ (by omega) (by unfold INT_MAX; omega), e1, e2, r1, r2]
      simp [genDen]

/-! ## The Fibonacci numbers and the closed forms -/

theorem fibSpec_eq_fib (n : Nat) : fibSpec n = Nat.fib n := by
  induction n using Nat.strong_induction_on with
  | _ n ih =>
    match n, ih with
    | 0, _ => rfl
    | 1, _ => rfl
    | m + 2, ih =>
      rw [fibSpec, ih (m + 1) (by omega), ih m (by omega), Nat.fib_add_two]
      omega

theorem fibSpec_46 : fibSpec 46 = 1836311903 := by
  rw [fibSpec_eq_fib]; norm_num [Nat.fib_add_two]

theorem fibSpec_le (n : Nat) (h : n ≤ 46) : fibSpec n ≤ 1836311903 := by
  rw [← fibSpec_46, fibSpec_eq_fib, fibSpec_eq_fib]
  exact Nat.fib_mono h

theorem genDen_value (n : Nat) (h : n ≤ 46) : (genDen n).1 = (fibSpec n : Int) := by
  induction n using Nat.strong_induction_on with
  | _ n ih =>
    match n, ih with
    | 0, _ => rfl
    | 1, _ => rfl
    | m + 2, ih =>
      have b0 := fibSpec_le (m + 2) h
      have e : fibSpec (m + 2) = fibSpec (m + 1) + fibSpec m := rfl
      simp only [genDen, ih (m + 1) (by omega) (by omega), ih m (by omega) (by omega)]
      rw [wrap_of_isInt32 _ (by unfold isInt32 INT_MIN INT_MAX; omega)]
      rw [e]; push_cast; rfl

theorem genDen_calls (n : Nat) (f : Nat) (args : List Int)
    (h : Event.call f args ∈ (genDen n).2) :
    f = 0 ∧ ∃ a : Int, args = [a] ∧ 0 ≤ a ∧ a < n := by
  induction n using Nat.strong_induction_on generalizing f args with
  | _ n ih =>
    match n, ih with
    | 0, _ => simp [genDen] at h
    | 1, _ => simp [genDen] at h
    | m + 2, ih =>
      simp only [genDen, List.mem_cons, List.mem_append, List.mem_singleton] at h
      rcases h with ((h | h | h | h) | (h | h | h)) | h | h
      · cases h
      · cases h
      · cases h
        exact ⟨rfl, _, rfl, by omega, by push_cast; omega⟩
      · obtain ⟨h0, a, ha, h1, h2⟩ := ih (m + 1) (by omega) f args h
        exact ⟨h0, a, ha, h1, by push_cast at h2 ⊢; omega⟩
      · cases h
      · cases h
        exact ⟨rfl, _, rfl, by omega, by push_cast; omega⟩
      · obtain ⟨h0, a, ha, h1, h2⟩ := ih m (by omega) f args h
        exact ⟨h0, a, ha, h1, by push_cast at h2 ⊢; omega⟩
      · cases h
      · cases h

/-! ## The reference implementation -/

theorem checked_of_isInt32 (v : Int) (h : isInt32 v) : checked v = some v := by
  unfold isInt32 at h
  simp [checked, h]

theorem fib_base (o : Bool) (fuel : Nat) (x : Int) (hx : x ≤ 1) :
    fib o (fuel + 1) x = some (.value x, []) := by
  simp [fib, hx]

theorem fib_step (o : Bool) (fuel : Nat) (x : Int) (hx : 2 ≤ x) (hmax : x ≤ INT_MAX) :
    fib o (fuel + 1) x =
      match fib o fuel (if o then x - 1 else x - 2), fib o fuel (if o then x - 2 else x - 1) with
      | some r1, some r2 =>
        some (refCombine (if o then x - 1 else x - 2) (if o then x - 2 else x - 1) r1 r2)
      | some (.undefined, t1), none => some (.undefined, (if o then x - 1 else x - 2) :: t1)
      | _, _ => none := by
  have h1 : checked (x - 1) = some (x - 1) := checked_of_isInt32 _ (by
    unfold isInt32 INT_MIN; unfold INT_MAX at *; omega)
  have h2 : checked (x - 2) = some (x - 2) := checked_of_isInt32 _ (by
    unfold isInt32 INT_MIN; unfold INT_MAX at *; omega)
  have hx1 : ¬ x ≤ 1 := by omega
  simp only [fib, hx1, h1, h2, if_false]
  generalize fib o fuel (if o then x - 1 else x - 2) = a
  generalize fib o fuel (if o then x - 2 else x - 1) = b
  rcases a with _ | ⟨_ | u, t1⟩ <;> rcases b with _ | ⟨_ | w, t2⟩ <;> simp [refCombine]
  all_goals split <;> simp_all

theorem fib_refDen (o : Bool) (n : Nat) :
    (n : Int) ≤ INT_MAX → ∀ fuel, n + 1 ≤ fuel → fib o fuel n = some (refDen o n) := by
  induction n using Nat.strong_induction_on with
  | _ n ih =>
    intro hmax fuel hfuel
    obtain ⟨k, rfl⟩ : ∃ k, fuel = k + 1 := ⟨fuel - 1, by omega⟩
    match n, ih with
    | 0, _ => simpa [refDen] using fib_base o k 0 (by omega)
    | 1, _ => simpa [refDen] using fib_base o k 1 (by omega)
    | m + 2, ih =>
      have e1 : ((m + 2 : Nat) : Int) - 1 = ((m + 1 : Nat) : Int) := by push_cast; ring
      have e2 : ((m + 2 : Nat) : Int) - 2 = (m : Int) := by push_cast; ring
      have hm : ((m + 2 : Nat) : Int) ≤ INT_MAX := hmax
      unfold INT_MAX at hmax hm
      have r1 := ih (m + 1) (by omega) (by unfold INT_MAX; omega) k (by omega)
      have r2 := ih m (by omega) (by unfold INT_MAX; omega) k (by omega)
      push_cast at r1
      rw [fib_step o k _ (by omega) (by unfold INT_MAX; omega), e1, e2, refDen]
      cases o <;> simp [r1, r2]

theorem refDen_value (o : Bool) (n : Nat) (h : n ≤ 46) :
    (refDen o n).1 = Outcome.value (fibSpec n) := by
  induction n using Nat.strong_induction_on with
  | _ n ih =>
    match n, ih with
    | 0, _ => rfl
    | 1, _ => rfl
    | m + 2, ih =>
      have b0 := fibSpec_le (m + 2) h
      have e : fibSpec (m + 2) = fibSpec (m + 1) + fibSpec m := rfl
      have v1 := ih (m + 1) (by omega) (by omega)
      have v2 := ih m (by omega) (by omega)
      have c1 : checked ((fibSpec (m + 1) : Int) + (fibSpec m : Int)) =
          some ((fibSpec (m + 2) : Nat) : Int) := by
        rw [checked_of_isInt32 _ (by unfold isInt32 INT_MIN INT_MAX; omega), e]; push_cast; rfl
      have c2 : checked ((fibSpec m : Int) + (fibSpec (m + 1) : Int)) =
          some ((fibSpec (m + 2) : Nat) : Int) := by
        rw [add_comm]; exact c1
      rcases h1 : refDen o (m + 1) with ⟨a1, t1⟩
      rcases h2 : refDen o m with ⟨a2, t2⟩
      rw [h1] at v1; rw [h2] at v2
      simp only at v1 v2
      subst v1 v2
      cases o <;> simp [refDen, refCombine, h1, h2, c1, c2]

theorem refCombine_calls (first second : Int) (r1 r2 : Outcome × List Int) (a : Int)
    (h : a ∈ (refCombine first second r1 r2).2) :
    a = first ∨ a ∈ r1.2 ∨ a = second ∨ a ∈ r2.2 := by
  obtain ⟨o1, t1⟩ := r1
  obtain ⟨o2, t2⟩ := r2
  unfold refCombine at h
  cases o1 <;> cases o2 <;> simp only at h
  all_goals first
    | (split at h <;> simp at h <;> tauto)
    | (simp at h; tauto)

theorem refDen_calls (o : Bool) (n : Nat) (a : Int) (h : a ∈ (refDen o n).2) :
    0 ≤ a ∧ a < n := by
  induction n using Nat.strong_induction_on generalizing a with
  | _ n ih =>
    match n, ih with
    | 0, _ => simp [refDen] at h
    | 1, _ => simp [refDen] at h
    | m + 2, ih =>
      have i1 := ih (m + 1) (by omega) a
      have i2 := ih m (by omega) a
      push_cast at i1 ⊢
      cases o
      · simp only [refDen, Bool.false_eq_true, if_false] at h
        rcases refCombine_calls _ _ _ _ _ h with h | h | h | h
        · omega
        · have := i2 h; omega
        · omega
        · have := i1 h; omega
      · simp only [refDen, if_true] at h
        rcases refCombine_calls _ _ _ _ _ h with h | h | h | h
        · omega
        · have := i1 h; omega
        · omega
        · have := i2 h; omega

theorem refDen_47 (o : Bool) : (refDen o 47).1 = Outcome.undefined := by
  have f46 : fibSpec 46 = 1836311903 := fibSpec_46
  have f45 : fibSpec 45 = 1134903170 := by
    rw [fibSpec_eq_fib]; norm_num [Nat.fib_add_two]
  have v1 : (refDen o (45 + 1)).1 = Outcome.value 1836311903 := by
    rw [refDen_value o (45 + 1) (by omega), show 45 + 1 = 46 from rfl, f46]; rfl
  have v2 : (refDen o 45).1 = Outcome.value 1134903170 := by
    rw [refDen_value o 45 (by omega), f45]; rfl
  have c1 : checked 2971215073 = none := by decide
  show (refDen o (45 + 2)).1 = Outcome.undefined
  rw [refDen]
  rcases h1 : refDen o (45 + 1) with ⟨a1, t1⟩
  rcases h2 : refDen o 45 with ⟨a2, t2⟩
  rw [h1] at v1; rw [h2] at v2
  simp only at v1 v2
  subst v1 v2
  cases o <;> simp [refCombine, c1]

theorem refCombine_undefined_left (first second : Int) (t1 : List Int)
    (r2 : Outcome × List Int) :
    (refCombine first second (Outcome.undefined, t1) r2).1 = Outcome.undefined := by
  simp [refCombine]

theorem refCombine_undefined_right (first second : Int) (r1 : Outcome × List Int)
    (t2 : List Int) :
    (refCombine first second r1 (Outcome.undefined, t2)).1 = Outcome.undefined := by
  obtain ⟨o1, t1⟩ := r1
  cases o1 <;> simp [refCombine]

theorem refDen_undefined (o : Bool) (n : Nat) (h : 47 ≤ n) :
    (refDen o n).1 = Outcome.undefined := by
  induction n using Nat.strong_induction_on with
  | _ n ih =>
    rcases Nat.lt_or_ge n 48 with h48 | h48
    · obtain rfl : n = 47 := by omega
      exact refDen_47 o
    · obtain ⟨m, rfl⟩ : ∃ m, n = m + 2 := ⟨n - 2, by omega⟩
      have u1 := ih (m + 1) (by omega) (by omega)
      rcases h1 : refDen o (m + 1) with ⟨a1, t1⟩
      rw [h1] at u1
      simp only at u1
      subst u1
      rw [refDen, h1]
      cases o
      · simp only [Bool.false_eq_true, if_false]
        exact refCombine_undefined_right _ _ _ _
      · simp only [if_true]
        exact refCombine_undefined_left _ _ _ _

theorem refDen_direct_calls (o : Bool) (n : Nat) (h : n + 2 ≤ 46) :
    ((n : Int) + 1) ∈ (refDen o (n + 2)).2 ∧ (n : Int) ∈ (refDen o (n + 2)).2 := by
  have v1 := refDen_value o (n + 1) (by omega)
  have v2 := refDen_value o n (by omega)
  rcases h1 : refDen o (n + 1) with ⟨a1, t1⟩
  rcases h2 : refDen o n with ⟨a2, t2⟩
  rw [h1] at v1; rw [h2] at v2
  simp only at v1 v2
  subst v1 v2
  rw [refDen, h1, h2]
  cases o <;> simp only [Bool.false_eq_true, if_false, if_true, refCombine] <;>
    split <;> simp

theorem fib_mono (o : Bool) :
    ∀ (fuel : Nat) (x : Int) (r : Outcome × List Int),
      fib o fuel x = some r → fib o (fuel + 1) x = some r := by
  intro fuel
  induction fuel with
  | zero =>
    intro x r h
    simp [fib] at h
  | succ k ih =>
    intro x r h
    rw [fib] at h
    rw [fib]
    by_cases hx : x ≤ 1
    · simpa [hx] using h
    · simp only [hx, if_false] at h ⊢
      rcases c1 : checked (x - 1) with _ | a <;> rcases c2 : checked (x - 2) with _ | b <;>
        simp only [c1, c2] at h ⊢
      · exact h
      · exact h
      · exact h
      · rcases f1 : fib o k (if o = true then a else b) with _ | ⟨u | _, t1⟩
        · simp [f1] at h
        · rcases f2 : fib o k (if o = true then b else a) with _ | ⟨v | _, t2⟩
          · simp [f1, f2] at h
          · simpa [f1, f2, ih _ _ f1, ih _ _ f2] using h
          · simpa [f1, f2, ih _ _ f1, ih _ _ f2] using h
        · simpa [f1, ih _ _ f1] using h

theorem fib_mono_le (o : Bool) (fuel fuel2 : Nat) (hle : fuel ≤ fuel2) (x : Int)
    (r : Outcome × List Int) (h : fib o fuel x = some r) : fib o fuel2 x = some r := by
  induction fuel2 with
  | zero =>
    obtain rfl : fuel = 0 := by omega
    exact h
  | succ k ih =>
    rcases Nat.lt_or_ge fuel (k + 1) with hlt | hge
    · exact fib_mono o k x r (ih (by omega))
    · obtain rfl : fuel = k + 1 := by omega
      exact h

/-! ## Executions on 32-bit arguments -/

theorem genFib_of_le_one (x : Int) (hx : x ≤ 1) (fuel : Nat) (hfuel : 2 ≤ fuel) :
    genFib fuel x = some (x, [Event.block 0 0, Event.block 0 1]) := by
  obtain ⟨k, rfl⟩ : ∃ k, fuel = k + 2 := ⟨fuel - 2, by omega⟩
  exact genFib_base k x hx

theorem two_le_genFuel (x : Int) : 2 ≤ genFuel x := by
  unfold genFuel; omega

theorem one_le_refFuel (x : Int) : 1 ≤ refFuel x := by
  unfold refFuel; omega

theorem genFib_of_nonneg (x : Int) (h0 : 0 ≤ x) (hmax : x ≤ INT_MAX) (fuel : Nat)
    (hfuel : genFuel x ≤ fuel) : genFib fuel x = some (genDen x.toNat) := by
  obtain ⟨n, rfl⟩ : ∃ n : Nat, x = n := ⟨x.toNat, (Int.toNat_of_nonneg h0).symm⟩
  simp only [Int.toNat_ofNat]
  exact genFib_genDen n hmax fuel (by simpa [genFuel] using hfuel)

theorem fib_of_le_one (o : Bool) (x : Int) (hx : x ≤ 1) (fuel : Nat)
    (hfuel : 1 ≤ fuel) : fib o fuel x = some (Outcome.value x, []) := by
  obtain ⟨k, rfl⟩ : ∃ k, fuel = k + 1 := ⟨fuel - 1, by omega⟩
  exact fib_base o k x hx

theorem fib_of_nonneg (o : Bool) (x : Int) (h0 : 0 ≤ x) (hmax : x ≤ INT_MAX) (fuel : Nat)
    (hfuel : refFuel x ≤ fuel) : fib o fuel x = some (refDen o x.toNat) := by
  obtain ⟨n, rfl⟩ : ∃ n : Nat, x = n := ⟨x.toNat, (Int.toNat_of_nonneg h0).symm⟩
  simp only [Int.toNat_ofNat]
  exact fib_refDen o n hmax fuel (by simpa [refFuel] using hfuel)

theorem genFib_total (x : Int) (hx : isInt32 x) :
    ∃ r, ∀ fuel, genFuel x ≤ fuel → genFib fuel x = some r := by
  by_cases h : x ≤ 1
  · exact ⟨_, fun fuel hf => genFib_of_le_one x h fuel (le_trans (two_le_genFuel x) hf)⟩
  · exact ⟨_, fun fuel hf => genFib_of_nonneg x (by omega) hx.2 fuel hf⟩

/-! ## The claims -/

/-- C1: on every argument `x ≤ 1` (negative ones included) the generated
`fib`, given at least two units of fuel (one for each block entered), returns
`x` itself; the execution enters block 0 (`entry`) and then block 1
(`x_le_1`) and makes no call. -/
theorem genFib_le_one (x : Int) (hx : x ≤ 1) (fuel : Nat) (hfuel : 2 ≤ fuel) :
    genFib fuel x = some (x, [Event.block 0 0, Event.block 0 1]) ∧
      blockName buildModule 0 0 = some "entry" ∧
      blockName buildModule 0 1 = some "x_le_1" :=
  ⟨genFib_of_le_one x hx fuel hfuel, rfl, rfl⟩

theorem genFib_le_one_witness :
    genFib 2 (-7) = some (-7, [Event.block 0 0, Event.block 0 1]) ∧
      blockName buildModule 0 0 = some "entry" ∧
      blockName buildModule 0 1 = some "x_le_1" :=
  genFib_le_one (-7) (by decide) 2 (by decide)

/-- C2: on every 32-bit argument `x ≥ 2` the generated `fib` terminates (with
`genFuel x` units of fuel or more) and returns the 32-bit wrapped sum of the
values `r1`, `r2` that it returns on `x - 1` and `x - 2`. Both subtractions
are exact. The execution enters block 0 (`entry`), then block 2 (`x_gt_1`),
and makes exactly two direct calls, first on `x - 1` and then on `x - 2`. -/
theorem genFib_recursion (x : Int) (h2 : 2 ≤ x) (hmax : x ≤ INT_MAX) :
    ∃ r1 t1 r2 t2,
      (∀ fuel, genFuel (x - 1) ≤ fuel → genFib fuel (x - 1) = some (r1, t1)) ∧
      (∀ fuel, genFuel (x - 2) ≤ fuel → genFib fuel (x - 2) = some (r2, t2)) ∧
      (∀ fuel, genFuel x ≤ fuel →
        genFib fuel x = some (wrap 32 (r1 + r2),
          [Event.block 0 0, Event.block 0 2, Event.call 0 [x - 1]] ++ t1 ++
            [Event.ret r1, Event.call 0 [x - 2]] ++ t2 ++ [Event.ret r2])) ∧
      wrap 32 (x - 1) = x - 1 ∧ wrap 32 (x - 2) = x - 2 ∧
      blockName buildModule 0 2 = some "x_gt_1" := by
  have hi1 : isInt32 (x - 1) := by unfold isInt32 INT_MIN; unfold INT_MAX at *; omega
  have hi2 : isInt32 (x - 2) := by unfold isInt32 INT_MIN; unfold INT_MAX at *; omega
  obtain ⟨⟨r1, t1⟩, e1⟩ := genFib_total (x - 1) hi1
  obtain ⟨⟨r2, t2⟩, e2⟩ := genFib_total (x - 2) hi2
  refine ⟨r1, t1, r2, t2, e1, e2, ?_, wrap_of_isInt32 _ hi1, wrap_of_isInt32 _ hi2, rfl⟩
  intro fuel hfuel
  have g1 : genFuel (x - 1) ≤ fuel - 2 := by unfold genFuel at *; omega
  have g2 : genFuel (x - 2) ≤ fuel - 2 := by unfold genFuel at *; omega
  obtain ⟨k, rfl⟩ : ∃ k, fuel = k + 2 := ⟨fuel - 2, by unfold genFuel at hfuel; omega⟩
  rw [genFib_step k x h2 hmax, e1 k (by simpa using g1), e2 k (by simpa using g2)]
  simp

theorem genFib_recursion_witness :
    ∃ r1 t1 r2 t2,
      (∀ fuel, genFuel (5 - 1) ≤ fuel → genFib fuel (5 - 1) = some (r1, t1)) ∧
      (∀ fuel, genFuel (5 - 2) ≤ fuel → genFib fuel (5 - 2) = some (r2, t2)) ∧
      (∀ fuel, genFuel 5 ≤ fuel →
        genFib fuel 5 = some (wrap 32 (r1 + r2),
          [Event.block 0 0, Event.block 0 2, Event.call 0 [5 - 1]] ++ t1 ++
            [Event.ret r1, Event.call 0 [5 - 2]] ++ t2 ++ [Event.ret r2])) ∧
      wrap 32 (5 - 1) = 5 - 1 ∧ wrap 32 (5 - 2) = 5 - 2 ∧
      blockName buildModule 0 2 = some "x_gt_1" :=
  genFib_recursion 5 (by decide) (by decide)

theorem toNat_le_46 (x : Int) (h46 : x ≤ 46) : x.toNat ≤ 46 := by omega

/-- C3: for every 32-bit `x ≤ 46` (negative ones included) and either
evaluation order of the reference, the generated `fib` and the reference
`fib` both terminate, the reference without overflow, and they return the
same value. -/
theorem genFib_eq_reference (x : Int) (hx : isInt32 x) (h46 : x ≤ 46) (o : Bool) :
    ∃ v tg tr,
      (∀ fuel, genFuel x ≤ fuel → genFib fuel x = some (v, tg)) ∧
      (∀ fuel, refFuel x ≤ fuel → fib o fuel x = some (Outcome.value v, tr)) := by
  by_cases h : x ≤ 1
  · exact ⟨x, _, _,
      fun fuel hf => genFib_of_le_one x h fuel (le_trans (two_le_genFuel x) hf),
      fun fuel hf => fib_of_le_one o x h fuel (le_trans (one_le_refFuel x) hf)⟩
  · have h0 : 0 ≤ x := by omega
    have hn := toNat_le_46 x h46
    refine ⟨(fibSpec x.toNat : Int), (genDen x.toNat).2, (refDen o x.toNat).2, ?_, ?_⟩
    · intro fuel hf
      rw [genFib_of_nonneg x h0 hx.2 fuel hf, ← genDen_value _ hn]
    · intro fuel hf
      rw [fib_of_nonneg o x h0 hx.2 fuel hf, ← refDen_value o _ hn]

theorem genFib_eq_reference_witness :
    ∃ v tg tr,
      (∀ fuel, genFuel 12 ≤ fuel → genFib fuel 12 = some (v, tg)) ∧
      (∀ fuel, refFuel 12 ≤ fuel → fib false fuel 12 = some (Outcome.value v, tr)) :=
  genFib_eq_reference 12 (by decide) (by decide) false

/-- C4: for every `x` with `0 ≤ x ≤ 46` the generated `fib` and the reference
`fib` (in either evaluation order) terminate and return the Fibonacci number
`F(x)`, which fits a signed 32-bit integer; the reference does so without any
overflow, and every call of the generated function is again on an argument
in `[0, x)`, so that each addition of the recursion adds two Fibonacci
numbers whose sum fits. `F(10) = 55`; `F(47) = 2971215073` exceeds `INT_MAX`,
and on 47 the reference overflows. -/
theorem fib_computes_fibonacci (x : Int) (h0 : 0 ≤ x) (h46 : x ≤ 46) (o : Bool) :
    (∃ tg tr,
      (∀ fuel, genFuel x ≤ fuel → genFib fuel x = some ((fibSpec x.toNat : Int), tg)) ∧
      (∀ fuel, refFuel x ≤ fuel →
        fib o fuel x = some (Outcome.value (fibSpec x.toNat), tr)) ∧
      (∀ f args, Event.call f args ∈ tg → f = 0 ∧ ∃ a, args = [a] ∧ 0 ≤ a ∧ a < x)) ∧
      isInt32 (fibSpec x.toNat) ∧
      fibSpec 10 = 55 ∧
      fibSpec 47 = 2971215073 ∧ ¬ isInt32 (fibSpec 47) ∧
      (∃ tr, ∀ fuel, refFuel 47 ≤ fuel → fib o fuel 47 = some (Outcome.undefined, tr)) := by
  have hn := toNat_le_46 x h46
  have hmax : x ≤ INT_MAX := by unfold INT_MAX; omega
  have b := fibSpec_le _ hn
  have hc : ((x.toNat : Nat) : Int) = x := Int.toNat_of_nonneg h0
  have f47 : fibSpec 47 = 2971215073 := by
    rw [fibSpec_eq_fib]; norm_num [Nat.fib_add_two]
  refine ⟨⟨(genDen x.toNat).2, (refDen o x.toNat).2, ?_, ?_, ?_⟩, ?_, by decide, f47, ?_, ?_⟩
  · intro fuel hf
    rw [genFib_of_nonneg x h0 hmax fuel hf, ← genDen_value _ hn]
  · intro fuel hf
    rw [fib_of_nonneg o x h0 hmax fuel hf, ← refDen_value o _ hn]
  · intro f args hm
    have := genDen_calls _ f args hm
    rwa [hc] at this
  · unfold isInt32 INT_MIN INT_MAX; omega
  · rw [f47]; decide
  · refine ⟨(refDen o 47).2, fun fuel hf => ?_⟩
    rw [fib_of_nonneg o 47 (by decide) (by decide) fuel hf, ← refDen_47 o]
    rfl

theorem fib_computes_fibonacci_witness :
    (∃ tg tr,
      (∀ fuel, genFuel 10 ≤ fuel → genFib fuel 10 = some (55, tg)) ∧
      (∀ fuel, refFuel 10 ≤ fuel → fib true fuel 10 = some (Outcome.value 55, tr)) ∧
      (∀ f args, Event.call f args ∈ tg →
        f = 0 ∧ ∃ a, args = [a] ∧ 0 ≤ a ∧ a < (10 : Int))) ∧
      isInt32 55 ∧
      fibSpec 10 = 55 ∧
      fibSpec 47 = 2971215073 ∧ ¬ isInt32 (fibSpec 47) ∧
      (∃ tr, ∀ fuel, refFuel 47 ≤ fuel → fib true fuel 47 = some (Outcome.undefined, tr)) :=
  fib_computes_fibonacci 10 (by decide) (by decide) true

theorem fib_47_no_value (o : Bool) :
    ¬ ∃ (fuel : Nat) (v : Int) (tr : List Int), fib o fuel 47 = some (Outcome.value v, tr) := by
  rintro ⟨fuel, v, tr, h⟩
  have h1 := fib_mono_le o fuel (max fuel (refFuel 47)) (le_max_left _ _) 47 _ h
  have h2 := fib_of_nonneg o 47 (by decide) (by decide) (max fuel (refFuel 47))
    (le_max_right _ _)
  rw [h2] at h1
  have h3 : (refDen o (Int.toNat 47)).1 = Outcome.value v := by
    rw [Option.some.inj h1]
  rw [show Int.toNat 47 = 47 from rfl, refDen_47 o] at h3
  cases h3

/-- C10, as stated, fails for the reference on 47, a 32-bit input: with
either evaluation order and whatever the fuel, the reference `fib` does not
return a value there; with enough fuel its evaluation ends in the signed
overflow of `fib(46) + fib(45)`, which is undefined behaviour. -/
theorem fib_reference_not_total :
    isInt32 47 ∧
      (¬ ∃ (o : Bool) (fuel : Nat) (v : Int) (tr : List Int),
        fib o fuel 47 = some (Outcome.value v, tr)) ∧
      (∃ tr, ∀ fuel, refFuel 47 ≤ fuel → fib true fuel 47 = some (Outcome.undefined, tr)) := by
  refine ⟨by decide, ?_, (refDen true 47).2, fun fuel hf => ?_⟩
  · rintro ⟨o, fuel, v, tr, h⟩
    exact fib_47_no_value o ⟨fuel, v, tr, h⟩
  · rw [fib_of_nonneg true 47 (by decide) (by decide) fuel hf, ← refDen_47 true]
    rfl

/-- C10, amended: on every 32-bit argument `x` the generated `fib` terminates:
every amount of fuel from `genFuel x` gives the same value `v` and events
`tg`. The reference `fib` (in either evaluation order) terminates with a
value, the same `v`, exactly on the arguments `x ≤ 46`; on `x ≥ 47` its
evaluation ends, after the calls `tr`, in a signed overflow, which is
undefined behaviour. For `x ≤ 1` neither makes a call; every call of either
execution is a call of `fib` on an argument `a` with `0 ≤ a < x`; and for
`2 ≤ x ≤ 46` the reference calls itself on both `x - 1` and `x - 2`. -/
theorem fib_termination (x : Int) (hx : isInt32 x) (o : Bool) :
    ∃ v tg out tr,
      (∀ fuel, genFuel x ≤ fuel → genFib fuel x = some (v, tg)) ∧
      (∀ fuel, refFuel x ≤ fuel → fib o fuel x = some (out, tr)) ∧
      (x ≤ 46 → out = Outcome.value v) ∧
      (47 ≤ x → out = Outcome.undefined) ∧
      (x ≤ 1 → tr = [] ∧ ∀ f args, Event.call f args ∉ tg) ∧
      (∀ f args, Event.call f args ∈ tg → f = 0 ∧ ∃ a, args = [a] ∧ 0 ≤ a ∧ a < x) ∧
      (∀ a ∈ tr, 0 ≤ a ∧ a < x) ∧
      (2 ≤ x → x ≤ 46 → x - 1 ∈ tr ∧ x - 2 ∈ tr) := by
  by_cases h : x ≤ 1
  · refine ⟨x, _, _, _,
      fun fuel hf => genFib_of_le_one x h fuel (le_trans (two_le_genFuel x) hf),
      fun fuel hf => fib_of_le_one o x h fuel (le_trans (one_le_refFuel x) hf),
      fun _ => rfl, fun h47 => by omega, fun _ => ⟨rfl, ?_⟩, ?_, ?_, fun h2 => by omega⟩
    · intro f args hm; simp at hm
    · intro f args hm; simp at hm
    · intro a hm; simp at hm
  · have h0 : 0 ≤ x := by omega
    have hc : ((x.toNat : Nat) : Int) = x := Int.toNat_of_nonneg h0
    refine ⟨(genDen x.toNat).1, (genDen x.toNat).2, (refDen o x.toNat).1, (refDen o x.toNat).2,
      fun fuel hf => genFib_of_nonneg x h0 hx.2 fuel hf,
      fun fuel hf => fib_of_nonneg o x h0 hx.2 fuel hf, ?_, ?_, fun h1 => absurd h1 h,
      ?_, ?_, ?_⟩
    · intro h46
      rw [refDen_value o _ (toNat_le_46 x h46), genDen_value _ (toNat_le_46 x h46)]
    · intro h47
      exact refDen_undefined o _ (by omega)
    · intro f args hm
      have := genDen_calls _ f args hm
      rwa [hc] at this
    · intro a hm
      have := refDen_calls o _ a hm
      rwa [hc] at this
    · intro h2 h46
      obtain ⟨n, hn⟩ : ∃ n, x.toNat = n + 2 := ⟨x.toNat - 2, by omega⟩
      have hd := refDen_direct_calls o n (by omega)
      rw [← hn] at hd
      have e1 : (n : Int) + 1 = x - 1 := by omega
      have e2 : (n : Int) = x - 2 := by omega
      rw [e1, e2] at hd
      exact hd

theorem fib_termination_witness :
    ∃ v tg out tr,
      (∀ fuel, genFuel 46 ≤ fuel → genFib fuel 46 = some (v, tg)) ∧
      (∀ fuel, refFuel 46 ≤ fuel → fib true fuel 46 = some (out, tr)) ∧
      ((46 : Int) ≤ 46 → out = Outcome.value v) ∧
      ((47 : Int) ≤ 46 → out = Outcome.undefined) ∧
      ((46 : Int) ≤ 1 → tr = [] ∧ ∀ f args, Event.call f args ∉ tg) ∧
      (∀ f args, Event.call f args ∈ tg →
        f = 0 ∧ ∃ a, args = [a] ∧ 0 ≤ a ∧ a < (46 : Int)) ∧
      (∀ a ∈ tr, 0 ≤ a ∧ a < (46 : Int)) ∧
      ((2 : Int) ≤ 46 → (46 : Int) ≤ 46 → (46 : Int) - 1 ∈ tr ∧ (46 : Int) - 2 ∈ tr) :=
  fib_termination 46 (by decide) true

/-! ## The built module -/

theorem declare_fib_empty (readDead : Ty → Option Ty) (t : Ty)
    (hr : readDead Type_getInt32Ty = some t) (name dl tt : String) :
    declare_fib Type_getInt32Ty readDead ⟨name, [], dl, tt⟩ =
      some (⟨name, [⟨"fib", .ExternalLinkage, ⟨.int 32, [t], false⟩, []⟩], dl, tt⟩,
        ⟨0, ⟨.int 32, [t], false⟩⟩) := by
  have hr2 : readDead (Ty.int 32) = some t := hr
  simp [declare_fib, FunctionType_get, ArrayRef.read, ArrayElt.readAll, ArrayRef.ofTemporary,
    ArrayElt.read, hr2, Function_Create, Module.uniqueName, Module.hasName, Type_getInt32Ty]

theorem declare_fib_fault (readDead : Ty → Option Ty) (hr : readDead Type_getInt32Ty = none)
    (m : Module) : declare_fib Type_getInt32Ty readDead m = none := by
  have hr2 : readDead (Ty.int 32) = none := hr
  simp [declare_fib, FunctionType_get, ArrayRef.read, ArrayElt.readAll, ArrayRef.ofTemporary,
    ArrayElt.read, hr2, Type_getInt32Ty]

theorem BasicBlock_Create_mk (name dl tt : String) (fs : List Function) (n : String) (p : Nat) :
    BasicBlock_Create ⟨name, fs, dl, tt⟩ n p =
      match fs[p]? with
      | some f => (⟨name, modifyAt (fun g => { g with blocks := g.blocks ++ [⟨n, []⟩] }) p fs, dl, tt⟩,
          ⟨p, f.blocks.length⟩)
      | none => (⟨name, fs, dl, tt⟩, ⟨p, 0⟩) := by
  simp only [BasicBlock_Create]

theorem IRBuilder_insert_mk (name dl tt : String) (fs : List Function) (bp : BlockRef)
    (tyOf : Function → Ty) (op : Opcode) :
    IRBuilder.insert ⟨some bp⟩ ⟨name, fs, dl, tt⟩ tyOf op =
      match fs[bp.func]? with
      | none => (⟨name, fs, dl, tt⟩, .inst 0)
      | some f =>
        (⟨name, fs.set bp.func (f.appendInst bp.block ⟨f.instCount, tyOf f, op⟩), dl, tt⟩,
          .inst f.instCount) := by
  simp only [IRBuilder.insert]

theorem define_fib_declared (name dl tt : String) :
    define_fib Type_getInt32Ty
        ⟨name, [⟨"fib", .ExternalLinkage, ⟨.int 32, [.int 32], false⟩, []⟩], dl, tt⟩
        ⟨0, ⟨.int 32, [.int 32], false⟩⟩ =
      ⟨name, [⟨"fib", .ExternalLinkage, ⟨.int 32, [.int 32], false⟩, fibBlocks⟩], dl, tt⟩ := by
  unfold define_fib
  simp only [BasicBlock_Create_mk, List.getElem?_cons_zero, modifyAt, List.set_cons_zero,
    List.append_nil, List.nil_append, List.length_nil, List.length_cons, List.cons_append,
    IRBuilder.SetInsertPoint, IRBuilder.CreateICmpSLE,
    IRBuilder.CreateCondBr, IRBuilder.CreateRet, IRBuilder.CreateSub, IRBuilder.CreateAdd,
    IRBuilder.CreateCall, IRBuilder_insert_mk, Function.appendInst]
  rfl

/-- In an execution in which the read through the dead temporary finds the
stored value, `declare_fib` followed by `define_fib` leaves, on a module
without functions, exactly one function: `fib`, with external linkage, not
variadic, of type `i32 (i32)`, with the body `fibBlocks`. -/
theorem declare_define_fib_of_intact (readDead : Ty → Option Ty)
    (hr : readDead Type_getInt32Ty = some Type_getInt32Ty) (m : Module)
    (hm : m.functions = []) :
    ∃ (m1 : Module) (p : Function_Pair) (f : Function),
      declare_fib Type_getInt32Ty readDead m = some (m1, p) ∧
      (define_fib Type_getInt32Ty m1 p).functions = [f] ∧
      f.name = "fib" ∧ f.linkage = LinkageTypes.ExternalLinkage ∧
      f.type.isVarArg = false ∧ f.type.params = [Ty.int 32] ∧ f.type.ret = Ty.int 32 ∧
      f.blocks = fibBlocks ∧
      m1.functions = [{ f with blocks := [] }] ∧
      p = ⟨0, f.type⟩ := by
  obtain ⟨name, fs, dl, tt⟩ := m
  simp only at hm
  subst hm
  refine ⟨_, _, ⟨"fib", .ExternalLinkage, ⟨.int 32, [.int 32], false⟩, fibBlocks⟩,
    declare_fib_empty readDead _ hr name dl tt, ?_, rfl, rfl, rfl, rfl, rfl, rfl, rfl, rfl⟩
  show (define_fib Type_getInt32Ty _ _).functions = _
  rw [show Type_getInt32Ty = Ty.int 32 from rfl] at *
  rw [show define_fib (Ty.int 32) = define_fib Type_getInt32Ty from rfl, define_fib_declared]

/-- C5, evaluated where the code departs from it: on the empty module
`fibonacci`, when the read through the dead temporary of `declare_fib` finds
another type in the reused storage (here `void`), the one function `fib` is
declared with that parameter type instead of `i32`, and `define_fib` keeps
it; when the read faults, no function is declared at all. -/
theorem declare_fib_dead_temporary :
    (declare_fib Type_getInt32Ty (fun _ => some Ty.void) (Module.create "fibonacci")).map
        (fun r => r.1.functions.map (fun f => f.type.params)) = some [[Ty.void]] ∧
      (buildModuleWith (fun _ => some Ty.void)).map
        (fun m => m.functions.map (fun f => f.type.params)) = some [[Ty.void]] ∧
      [Ty.void] ≠ [Ty.int 32] ∧
      declare_fib Type_getInt32Ty (fun _ => none) (Module.create "fibonacci") = none ∧
      buildModuleWith (fun _ => none) = none := by
  refine ⟨rfl, rfl, by decide, rfl, rfl⟩

/-- C6: the body of the one function of the built module has exactly the three
blocks `entry`, `x_le_1`, `x_gt_1`, in this order; every block has exactly one
terminator, in last position; the last instruction of `entry` is a
conditional branch with true target block 1 (`x_le_1`) and false target
block 2 (`x_gt_1`); the last instructions of the two other blocks are
returns; and every block is reachable from the entry block. -/
theorem fib_body_well_formed :
    ∃ f : Function,
      buildModule.functions = [f] ∧
      f.blocks.map (fun b => b.name) = ["entry", "x_le_1", "x_gt_1"] ∧
      (∀ b ∈ f.blocks, b.wellFormed = true) ∧
      (f.blocks.map (fun b => (b.last.map (fun i => i.op)))) =
        [some (.condBr (.inst 0) 1 2), some (.ret (.arg 0)), some (.ret (.inst 7))] ∧
      f.blocks.map (fun b => b.successors) = [[1, 2], [], []] ∧
      (∀ i, i < f.blocks.length → i ∈ f.reachable) := by
  refine ⟨_, rfl, rfl, ?_, rfl, rfl, ?_⟩ <;> decide

/-! ## The emission step and the driver -/

theorem generate_object_file_lookup_error (h : Host) (m : Module) (w : World) (e : String)
    (hl : h.lookupTarget h.getDefaultTargetTriple = .error e) :
    generate_object_file h m w = (m, w.errs [e]) := by
  simp [generate_object_file, hl]

theorem generate_object_file_open_error (h : Host) (m : Module) (w : World) (t : Target)
    (msg : String) (hl : h.lookupTarget h.getDefaultTargetTriple = .ok t)
    (ho : h.openForWrite "fibonacci.obj" = some msg) :
    generate_object_file h m w = (h.prepare t m, w.errs ["Could not open file: ", msg]) := by
  simp [generate_object_file, hl, ho, raw_fd_ostream.create, Host.prepare, Host.machine]

theorem generate_object_file_passes_error (h : Host) (m : Module) (w : World) (t : Target)
    (hl : h.lookupTarget h.getDefaultTargetTriple = .ok t)
    (ho : h.openForWrite "fibonacci.obj" = none)
    (hp : h.addPassesToEmitFile (h.machine t) = true) :
    generate_object_file h m w =
      (h.prepare t m, ((w.writeFile "fibonacci.obj" []).errs ["Error emitting file"]).writeFile
        "fibonacci.obj" []) := by
  unfold Host.machine at hp
  simp [generate_object_file, hl, ho, hp, raw_fd_ostream.create, Host.prepare, Host.machine,
    raw_fd_ostream.destroy, raw_fd_ostream.writeOut, World.readFile, World.writeFile, World.errs]

theorem generate_object_file_success (h : Host) (m : Module) (w : World) (t : Target)
    (hl : h.lookupTarget h.getDefaultTargetTriple = .ok t)
    (ho : h.openForWrite "fibonacci.obj" = none)
    (hp : h.addPassesToEmitFile (h.machine t) = false) :
    generate_object_file h m w =
      (h.prepare t m,
        { w with
          files := ("fibonacci.obj", h.codegen (h.machine t) (h.prepare t m)) ::
            w.files.filter (fun p => p.1 != "fibonacci.obj")
          passRuns := w.passRuns ++ [h.prepare t m]
          flushes := w.flushes + 1 }) := by
  unfold Host.machine at hp
  simp [generate_object_file, hl, ho, hp, raw_fd_ostream.create, Host.prepare, Host.machine,
    raw_fd_ostream.destroy, raw_fd_ostream.writeOut, raw_fd_ostream.flush, World.readFile,
    World.writeFile, List.filter_filter]

theorem main_fault (h : Host) (w : World)
    (hr : h.readDeadTemporary Type_getInt32Ty = none) : (main h w).1 = faultStatus := by
  have hd := declare_fib_fault h.readDeadTemporary hr (Module.create "fibonacci")
  unfold main
  simp only [hd]

/-- C9, as stated, fails: on the host `hostNoEmit` the target is resolved and
the output file is opened, yet `generate_object_file` runs no emission pass,
does not call `flush`, and reports `Error emitting file` on standard error. -/
theorem emission_third_failure_kind :
    hostNoEmit.lookupTarget hostNoEmit.getDefaultTargetTriple = .ok ⟨"x86-64"⟩ ∧
    hostNoEmit.openForWrite "fibonacci.obj" = none ∧
    (generate_object_file hostNoEmit buildModule world0).2.passRuns = [] ∧
    (generate_object_file hostNoEmit buildModule world0).2.flushes = 0 ∧
    (generate_object_file hostNoEmit buildModule world0).2.stderr = ["Error emitting file"] :=
  ⟨rfl, rfl, rfl, rfl, rfl⟩

/-- C9, amended: `generate_object_file` has exactly three failure kinds. On
every host exactly one of four cases applies: the target lookup fails; the
target is resolved and the output file cannot be opened; both succeed and
the emit-file passes cannot be added; or all three succeed. In each of the
first three cases a message is written to standard error and no emission
pass is run and `flush` is not called; in the last case the emission passes
are run once over the module (with data layout and triple attached), `flush`
is called once, the output file holds the emitted bytes, and nothing is
written to standard error. -/
theorem emission_failure_kinds (h : Host) (m : Module) (w : World) :
    (∃ e, h.lookupTarget h.getDefaultTargetTriple = .error e ∧
      (generate_object_file h m w).2.stderr = w.stderr ++ [e] ∧
      (generate_object_file h m w).2.passRuns = w.passRuns ∧
      (generate_object_file h m w).2.flushes = w.flushes) ∨
    (∃ t msg, h.lookupTarget h.getDefaultTargetTriple = .ok t ∧
      h.openForWrite "fibonacci.obj" = some msg ∧
      (generate_object_file h m w).2.stderr = w.stderr ++ ["Could not open file: ", msg] ∧
      (generate_object_file h m w).2.passRuns = w.passRuns ∧
      (generate_object_file h m w).2.flushes = w.flushes) ∨
    (∃ t, h.lookupTarget h.getDefaultTargetTriple = .ok t ∧
      h.openForWrite "fibonacci.obj" = none ∧ h.addPassesToEmitFile (h.machine t) = true ∧
      (generate_object_file h m w).2.stderr = w.stderr ++ ["Error emitting file"] ∧
      (generate_object_file h m w).2.passRuns = w.passRuns ∧
      (generate_object_file h m w).2.flushes = w.flushes) ∨
    (∃ t, h.lookupTarget h.getDefaultTargetTriple = .ok t ∧
      h.openForWrite "fibonacci.obj" = none ∧ h.addPassesToEmitFile (h.machine t) = false ∧
      (generate_object_file h m w).2.stderr = w.stderr ∧
      (generate_object_file h m w).2.passRuns = w.passRuns ++ [h.prepare t m] ∧
      (generate_object_file h m w).2.flushes = w.flushes + 1 ∧
      (generate_object_file h m w).2.readFile "fibonacci.obj" =
        some (h.codegen (h.machine t) (h.prepare t m))) := by
  cases hl : h.lookupTarget h.getDefaultTargetTriple with
  | error e =>
    left
    rw [generate_object_file_lookup_error h m w e hl]
    exact ⟨e, rfl, rfl, rfl, rfl⟩
  | ok t =>
    right
    cases ho : h.openForWrite "fibonacci.obj" with
    | some msg =>
      left
      rw [generate_object_file_open_error h m w t msg hl ho]
      exact ⟨t, msg, rfl, rfl, rfl, rfl, rfl⟩
    | none =>
      right
      cases hp : h.addPassesToEmitFile (h.machine t) with
      | true =>
        left
        rw [generate_object_file_passes_error h m w t hl ho hp]
        exact ⟨t, rfl, rfl, hp, rfl, rfl, rfl⟩
      | false =>
        right
        rw [generate_object_file_success h m w t hl ho hp]
        refine ⟨t, rfl, rfl, hp, rfl, rfl, rfl, ?_⟩
        simp [World.readFile]

theorem emission_failure_kinds_witness :
    (generate_object_file hostOk buildModule world0).2.stderr = [] ∧
      (generate_object_file hostOk buildModule world0).2.flushes = 1 ∧
      (generate_object_file hostOk buildModule world0).2.readFile "fibonacci.obj" =
        some [127, 69, 76, 70] := by
  rcases emission_failure_kinds hostOk buildModule world0 with
    ⟨e, hl, _⟩ | ⟨t, msg, _, ho, _⟩ | ⟨t, _, _, hp, _⟩ | ⟨t, _, _, _, h1, _, h3, h4⟩
  · cases hl
  · cases ho
  · cases hp
  · exact ⟨h1, h3, h4⟩

end LlvmExample
